import Mathlib

/-!
Shallow embedding of the LuminaVS intent-parsing core
(`app/src/main/python`): the intent vocabulary (`intent_types.py`), the
rule classifier and merge engine (`classifiers.py`), the pipeline stages
(`pipeline.py`), DAG validation (`graph/dag.py`) and the orchestrator
history and dispatch (`orchestrator.py`).  Confidence values are modelled
as exact rationals; Python dicts with a fixed key set are modelled as
structures, and string-keyed parameter dicts as association lists.
-/

namespace LuminaVS

set_option maxRecDepth 8192
set_option maxHeartbeats 1000000

/-- Whitespace characters recognised by Python `str.strip` and the `\s`
regex class in the source (ASCII subset). -/
def pySpace (c : Char) : Bool :=
  c = ' ' || c = '\t' || c = '\n' || c = '\r' || c = '\x0b' || c = '\x0c'

/-- Substring containment, Python `needle in hay`. -/
def isSubstr (needle : List Char) : List Char → Bool
  | [] => needle.isEmpty
  | c :: t => needle.isPrefixOf (c :: t) || isSubstr needle t

/-- Python `needle in hay` on strings. -/
def containsStr (hay needle : String) : Bool := isSubstr needle.data hay.data

/-- Python `str.lower` (ASCII letters; the keyword tables are ASCII). -/
def toLowerStr (s : String) : String := ⟨s.data.map Char.toLower⟩

/-- Python `str.strip`: drop whitespace from both ends. -/
def stripChars (l : List Char) : List Char :=
  ((l.dropWhile pySpace).reverse.dropWhile pySpace).reverse

/-- Python `str.strip` on strings. -/
def stripStr (s : String) : String := ⟨stripChars s.data⟩

/-- Python `hay.replace(pat, "")`: remove all non-overlapping occurrences,
scanning left to right.  The fuel argument makes the recursion structural;
`fuel = hay.length` always suffices because each step consumes at least
one character. -/
def eraseSubFuel : Nat → List Char → List Char → List Char
  | 0, s, _ => s
  | _ + 1, [], _ => []
  | f + 1, c :: t, pat =>
    if !pat.isEmpty && pat.isPrefixOf (c :: t) then
      eraseSubFuel f ((c :: t).drop pat.length) pat
    else
      c :: eraseSubFuel f t pat

/-- Python `hay.replace(pat, "")`. -/
def eraseSub (s pat : List Char) : List Char := eraseSubFuel s.length s pat

/-- Numeric value of a digit string, as Python `int` on the capture group. -/
def digitsToNat (l : List Char) : Nat :=
  l.foldl (fun n c => 10 * n + (c.toNat - 48)) 0

/-- One attempt of the regex `(\d+)\s*%` anchored at the head of `l`:
greedy digit run, then a whitespace run, then a literal percent sign
(backtracking can never turn a failure here into a success). -/
def matchPercentAt (l : List Char) : Option Nat :=
  let digits := l.takeWhile Char.isDigit
  if digits.isEmpty then none
  else
    match (l.drop digits.length).dropWhile pySpace with
    | '%' :: _ => some (digitsToNat digits)
    | _ => none

/-- Leftmost match of `re.search` with pattern `(\d+)\s*%`, returning the
numeric value of the first capture group. -/
def findPercent : List Char → Option Nat
  | [] => none
  | c :: t =>
    match matchPercentAt (c :: t) with
    | some d => some d
    | none => findPercent t

/-- The ten `IntentAction` values of `intent_types.py`. -/
def validActions : List String :=
  ["set_render_mode", "add_effect", "remove_effect", "adjust_parameter",
   "capture_frame", "start_recording", "stop_recording", "reset", "help",
   "unknown"]

/-- `RenderMode` member names, lower-cased. -/
def modeNamesLower : List String :=
  ["passthrough", "stylized", "segmented", "depth_map", "normal_map"]

/-- `EffectType` member names, lower-cased (the enum includes `NONE`). -/
def effectNamesLower : List String :=
  ["none", "blur", "bloom", "color_grade", "vignette",
   "chromatic_aberration", "noise", "sharpen"]

/-- `clamp_confidence` from `intent_types.py`. -/
def clamp_confidence (value : ℚ) : ℚ := max 0 (min 1 value)

/-- Rational subtraction written out on numerator and denominator so that
the kernel can evaluate it on concrete values (`Rat.sub_def'` shows it
equals `a - b`); rational constants throughout the embedding are likewise
spelled with `mkRat` because the library subtraction, division and
decimal-literal functions are irreducible.  Used for the
`rule_confidence - 0.05` term of the merge threshold. -/
def ratSub (a b : ℚ) : ℚ :=
  mkRat (a.num * b.den - b.num * a.den) (a.den * b.den)

/-- A string-keyed parameter dict with numeric values. -/
abbrev Params := List (String × ℚ)

/-- Classification record: the intermediate dict built by
`classifiers.py` (action, target, parameters, confidence, source). -/
structure Classification where
  action : String
  target : String
  parameters : Params
  confidence : ℚ
  source : String
deriving DecidableEq

/-- `RENDER_MODES` keyword table from `classifiers.py`, in order. -/
def RENDER_MODES : List (String × List String) :=
  [("passthrough", ["normal", "passthrough", "original", "clear"]),
   ("stylized", ["stylize", "artistic", "style", "paint"]),
   ("segmented", ["segment", "separate", "isolate", "mask"]),
   ("depth_map", ["depth", "3d", "distance"]),
   ("normal_map", ["normal", "surface", "bumps"])]

/-- `EFFECTS` keyword table from `classifiers.py`, in order. -/
def EFFECTS : List (String × List String) :=
  [("blur", ["blur", "soft", "smooth", "fuzzy"]),
   ("bloom", ["bloom", "glow", "dreamy", "ethereal"]),
   ("color_grade", ["color", "grade", "tint", "warm", "cool"]),
   ("vignette", ["vignette", "border", "frame", "dark edges"]),
   ("chromatic_aberration", ["chromatic", "rgb split", "glitch"]),
   ("noise", ["noise", "grain", "film", "vintage"]),
   ("sharpen", ["sharpen", "crisp", "detail", "enhance"])]

/-- First table entry one of whose keywords occurs in `s` (the table loops
of `rule_based_classify`, which return on the first hit). -/
def findKeywordEntry (table : List (String × List String)) (s : String) :
    Option String :=
  match table with
  | [] => none
  | (name, kws) :: rest =>
    if kws.any (fun kw => containsStr s kw) then some name
    else findKeywordEntry rest s

def subtleWords : List String := ["subtle", "light", "slight", "little"]

def mediumWords : List String := ["medium", "moderate", "normal"]

def strongWords : List String := ["strong", "heavy", "intense", "max"]

/-- `extract_intensity` from `classifiers.py`. -/
def extract_intensity (text : String) : Option ℚ :=
  match findPercent text.data with
  | some d => some (mkRat d 100)
  | none =>
    if subtleWords.any (fun w => containsStr text w) then some (mkRat 3 10)
    else if mediumWords.any (fun w => containsStr text w) then some (mkRat 5 10)
    else if strongWords.any (fun w => containsStr text w) then some (mkRat 8 10)
    else none

/-- Control keyword lists of `rule_based_classify`, in chain order. -/
def captureKws : List String := ["capture", "screenshot", "photo", "snap"]

def recordKws : List String := ["record", "start recording", "video"]

def stopKws : List String := ["stop", "end recording"]

def resetKws : List String := ["reset", "clear", "default"]

def helpKws : List String := ["help", "what can", "how to"]

/-- Base result dict of `rule_based_classify`. -/
def ruleBase : Classification :=
  { action := "unknown", target := "", parameters := [],
    confidence := mkRat 5 10, source := "rule" }

/-- `rule_based_classify` from `classifiers.py`. -/
def rule_based_classify (normalized : String) : Classification :=
  match findKeywordEntry RENDER_MODES normalized with
  | some mode =>
    { ruleBase with action := "set_render_mode", target := mode,
                    confidence := mkRat 75 100 }
  | none =>
    match findKeywordEntry EFFECTS normalized with
    | some effect =>
      let action :=
        if containsStr normalized "remove" || containsStr normalized "off"
        then "remove_effect" else "add_effect"
      let parameters : Params :=
        match extract_intensity normalized with
        | some v => [("intensity", v)]
        | none => []
      { ruleBase with action := action, target := effect,
                      parameters := parameters, confidence := mkRat 7 10 }
    | none =>
      if captureKws.any (fun kw => containsStr normalized kw) then
        { ruleBase with action := "capture_frame", confidence := mkRat 9 10 }
      else if recordKws.any (fun kw => containsStr normalized kw) then
        { ruleBase with action := "start_recording",
                        confidence := mkRat 85 100 }
      else if stopKws.any (fun kw => containsStr normalized kw) then
        { ruleBase with action := "stop_recording",
                        confidence := mkRat 85 100 }
      else if resetKws.any (fun kw => containsStr normalized kw) then
        { ruleBase with action := "reset", confidence := mkRat 9 10 }
      else if helpKws.any (fun kw => containsStr normalized kw) then
        { ruleBase with action := "help", confidence := mkRat 95 100 }
      else ruleBase

/-- Raw model output dict as consumed by `normalize_llm_result`, with the
Python coercions already applied to its field values (`str(...)` on action
and target, a numeric confidence; the JSON-string parameter form is
modelled directly as the parsed dict). -/
structure RawLLM where
  action : String
  target : String
  parameters : Params
  confidence : ℚ
deriving DecidableEq

/-- `normalize_llm_result` from `classifiers.py`; `none` models both a
missing and a non-dict raw value. -/
def normalize_llm_result (raw : Option RawLLM) : Option Classification :=
  match raw with
  | none => none
  | some r =>
    let action := stripStr r.action
    let target := toLowerStr (stripStr r.target)
    let confidence := clamp_confidence r.confidence
    if action.data.isEmpty then none
    else some { action := action, target := target,
                parameters := r.parameters, confidence := confidence,
                source := "llm" }

/-- The `target_valid` flag of `merge_classifications`: the source starts
from `True`, overwrites it with the render-mode check when the action is
`set_render_mode` and with the effect check when the action is
`add_effect` or `remove_effect`; since the action is a single string the
two successive assignments amount to this conditional. -/
def mergeTargetValid (l : Classification) : Bool :=
  let target_value := toLowerStr l.target
  let target_valid1 :=
    if l.action == "set_render_mode" then
      modeNamesLower.contains target_value
    else true
  if l.action == "add_effect" || l.action == "remove_effect" then
    effectNamesLower.contains target_value
  else target_valid1

/-- The `use_llm` flag of `merge_classifications`: valid action, valid
target, and confidence at least `max(0.55, rule_conf - 0.05)`. -/
def mergeUseLLM (l rule_result : Classification) : Bool :=
  validActions.contains l.action && mergeTargetValid l &&
    decide (l.confidence ≥
      max (mkRat 55 100) (ratSub rule_result.confidence (mkRat 5 100)))

/-- `merge_classifications` from `classifiers.py`. -/
def merge_classifications (llm_result : Option Classification)
    (rule_result : Classification) : Classification :=
  let classification :=
    match llm_result with
    | none => rule_result
    | some l =>
      if mergeUseLLM l rule_result then
        { action := l.action, target := toLowerStr l.target,
          parameters := l.parameters,
          confidence := clamp_confidence l.confidence, source := "llm" }
      else rule_result
  { classification with
      confidence := clamp_confidence classification.confidence }

/-- `unknown_classification` from `classifiers.py`. -/
def unknown_classification (reason : String) : Classification :=
  { action := "unknown", target := reason, parameters := [],
    confidence := mkRat 2 10, source := "guardrail" }

/-- `OrchestratorConfig` from `config.py`. -/
structure OrchestratorConfig where
  rule_confidence_skip_llm : ℚ
  max_llm_tokens : Nat
  max_normalized_length : Nat
  default_effect_intensity : ℚ
  telemetry_enabled : Bool

/-- Intent result dataclass `AIIntent`; `parameters` is kept structured
(the source serialises it to a JSON string in the finalize stage). -/
structure AIIntent where
  action : String
  target : String
  parameters : Params
  confidence : ℚ
  timestamp : Int
deriving DecidableEq

/-- Orchestrator attributes read by the pipeline stages: `config` (may be
absent), whether a `model` is loaded, and the behaviour of the
`query_llm` collaborator (an `Except.error` models a raised exception). -/
structure Orch where
  config : Option OrchestratorConfig
  model : Bool
  query_llm : String → Except String (Option RawLLM)

/-- Pipeline context dict; `Option` fields model key presence, `Bool`
fields model flags that are only ever set to `True`. -/
structure PCtx where
  input : String
  timestamp : Option Int
  normalized_input : Option String
  original_input : Option String
  truncated : Bool
  classification : Option Classification
  rule_result : Option Classification
  llm_result : Option Classification
  action : Option String
  target : Option String
  parameters : Option Params
  confidence : Option ℚ
  classification_source : Option String
  validated : Bool
  intent : Option AIIntent

/-- The initial context built by `parse_intent`:
`{"input": user_input, "timestamp": ...}`. -/
def initCtx (input : String) (ts : Int) : PCtx :=
  { input := input, timestamp := some ts, normalized_input := none,
    original_input := none, truncated := false, classification := none,
    rule_result := none, llm_result := none, action := none, target := none,
    parameters := none, confidence := none, classification_source := none,
    validated := false, intent := none }

/-- Filler phrases stripped by the preprocess stage, in order (the last is
the contraction of "i would like to"; its apostrophe is spelled via the
code point to keep it out of the surrounding code). -/
def fillers : List String :=
  ["please", "can you", "could you", "i want to",
   "i" ++ String.singleton '\x27' ++ "d like to"]

/-- `preprocess_input` from `pipeline.py`. -/
def preprocess_input (orch : Orch) (user_input : String) (ctx : PCtx) :
    PCtx :=
  let n0 := stripChars (toLowerStr user_input).data
  let n1 := fillers.foldl (fun acc f => stripChars (eraseSub acc f.data)) n0
  let max_len := (orch.config.map (fun c => c.max_normalized_length)).getD 512
  if n1.length > max_len then
    { ctx with normalized_input := some ⟨n1.take max_len⟩,
               original_input := some user_input, truncated := true }
  else
    { ctx with normalized_input := some ⟨n1⟩,
               original_input := some user_input }

/-- `classify_intent` from `pipeline.py`.  The second component counts the
invocations of the `query_llm` collaborator (the source calls it exactly
once inside the guarded branch); an `Except.error` from the collaborator
is caught in the source (logged) and classification proceeds with the
rule result alone. -/
def classify_intent (orch : Orch) (user_input : String) (ctx : PCtx) :
    PCtx × Nat :=
  let normalized := ctx.normalized_input.getD (stripStr (toLowerStr user_input))
  if normalized.data.isEmpty then
    let classification := unknown_classification "empty_input"
    ({ ctx with classification := some classification,
                confidence := some classification.confidence }, 0)
  else
    let rule_result := rule_based_classify normalized
    let skip_threshold :=
      (orch.config.map (fun c => c.rule_confidence_skip_llm)).getD (mkRat 9 10)
    let invoke := decide (rule_result.confidence < skip_threshold) && orch.model
    let llm_result :=
      if invoke then
        match orch.query_llm normalized with
        | Except.error _ => none
        | Except.ok raw => normalize_llm_result raw
      else none
    let ctx1 :=
      match llm_result with
      | some l => { ctx with llm_result := some l }
      | none => ctx
    let classification := merge_classifications llm_result rule_result
    ({ ctx1 with classification := some classification,
                 rule_result := some rule_result,
                 confidence := some classification.confidence },
     if invoke then 1 else 0)

/-- `extract_parameters` from `pipeline.py` (the JSON re-parse of
string-typed parameters is the identity here, where parameters are
already structured). -/
def extract_parameters (_orch : Orch) (_user_input : String) (ctx : PCtx) :
    PCtx :=
  match ctx.classification with
  | none => ctx
  | some cls =>
    { ctx with action := some cls.action, target := some cls.target,
               parameters := some cls.parameters,
               confidence := some cls.confidence,
               classification_source := some cls.source }

/-- `validate_intent` from `pipeline.py`.  The branch conditions read the
local `action` and `target` captured before any demotion, exactly as the
source does. -/
def validate_intent (_orch : Orch) (_user_input : String) (ctx : PCtx) :
    PCtx :=
  let action := ctx.action.getD "unknown"
  let target := ctx.target.getD ""
  let actionValid := validActions.contains action
  let newAction := if actionValid then ctx.action else some "unknown"
  let conf1 :=
    if actionValid then ctx.confidence
    else some (min (ctx.confidence.getD (mkRat 5 10)) (mkRat 3 10))
  let conf2 :=
    if action == "set_render_mode" &&
        !(modeNamesLower.contains (toLowerStr target)) then
      some (min (conf1.getD (mkRat 5 10)) (mkRat 4 10))
    else conf1
  let conf3 :=
    if (action == "add_effect" || action == "remove_effect") &&
        !(effectNamesLower.contains (toLowerStr target)) then
      some (min (conf2.getD (mkRat 5 10)) (mkRat 4 10))
    else conf2
  { ctx with action := newAction,
             confidence := some (clamp_confidence (conf3.getD 0)),
             validated := true }

/-- `finalize_intent` from `pipeline.py`; `now` stands for
`int(time.time() * 1000)`, used only when the context lacks a
timestamp. -/
def finalize_intent (_orch : Orch) (_user_input : String) (now : Int)
    (ctx : PCtx) : PCtx :=
  let params := ctx.parameters.getD []
  let intent : AIIntent :=
    { action := ctx.action.getD "unknown", target := ctx.target.getD "",
      parameters := params, confidence := ctx.confidence.getD 0,
      timestamp := ctx.timestamp.getD now }
  { ctx with intent := some intent }

/-- Context after the preprocess node of the fixed execution order. -/
def ctxAfterPreprocess (orch : Orch) (input : String) (ts : Int) : PCtx :=
  preprocess_input orch input (initCtx input ts)

/-- Context after the classify node. -/
def ctxAfterClassify (orch : Orch) (input : String) (ts : Int) : PCtx :=
  (classify_intent orch input (ctxAfterPreprocess orch input ts)).1

/-- Number of model-collaborator calls made while parsing `input`. -/
def llmCalls (orch : Orch) (input : String) (ts : Int) : Nat :=
  (classify_intent orch input (ctxAfterPreprocess orch input ts)).2

/-- Context after the extract node. -/
def ctxAfterExtract (orch : Orch) (input : String) (ts : Int) : PCtx :=
  extract_parameters orch input (ctxAfterClassify orch input ts)

/-- Context after the validate node. -/
def ctxAfterValidate (orch : Orch) (input : String) (ts : Int) : PCtx :=
  validate_intent orch input (ctxAfterExtract orch input ts)

/-- Full run of the fixed execution order preprocess, classify, extract,
validate, finalize (`graph/dag.execute_dag` over the declared pipeline;
the per-node wall-clock telemetry writes are not modelled). -/
def run_pipeline (orch : Orch) (input : String) (ts now : Int) : PCtx :=
  finalize_intent orch input now (ctxAfterValidate orch input ts)

/-- Dependency-declaration view of a DAG node table: name and dependency
list per node, in dict insertion order (processors are irrelevant to
validation). -/
abbrev NodeTable := List (String × List String)

/-- Names of the declared nodes, in order. -/
def keysOf (nodes : NodeTable) : List String := nodes.map Prod.fst

/-- Index assigned to `n` by the Python dict comprehension building
`position` (later occurrences overwrite earlier ones, so this is the
index of the last occurrence). -/
def lastIdx : List String → String → Option Nat
  | [], _ => none
  | c :: t, n =>
    match lastIdx t n with
    | some i => some (i + 1)
    | none => if c = n then some 0 else none

/-- Dependency loop body of `validate_dag` for one node (a missing key for
`name` itself would be a Python `KeyError`, modelled as an error; it is
unreachable after the unscheduled-nodes check). -/
def checkDeps (order : List String) (name : String) :
    List String → Except String Unit
  | [] => Except.ok ()
  | dep :: rest =>
    match lastIdx order dep with
    | none => Except.error "dependency not in execution order"
    | some pd =>
      match lastIdx order name with
      | none => Except.error "node missing from position map"
      | some pn =>
        if pd > pn then Except.error "dependency order violation"
        else checkDeps order name rest

/-- Outer dependency loop of `validate_dag` over all nodes. -/
def checkNodes (order : List String) : NodeTable → Except String Unit
  | [] => Except.ok ()
  | (name, deps) :: rest =>
    match checkDeps order name deps with
    | Except.ok _ => checkNodes order rest
    | Except.error e => Except.error e

/-- `validate_dag` from `graph/dag.py`. -/
def validate_dag (nodes : NodeTable) (order : List String) :
    Except String Unit :=
  let missing := order.filter (fun n => !(keysOf nodes).contains n)
  if !missing.isEmpty then
    Except.error "execution order references missing nodes"
  else
    let unknown := (keysOf nodes).filter (fun n => !order.contains n)
    if !unknown.isEmpty then
      Except.error "nodes not scheduled in execution order"
    else checkNodes order nodes

/-- Specification-side definition, following the words of the spec: the
order is a valid topological linearization of the declared dependency
graph, i.e. a permutation of the node names in which every dependency is
scheduled strictly before its dependent. -/
def IsTopoLin (nodes : NodeTable) (order : List String) : Prop :=
  order.Perm (keysOf nodes) ∧
  ∀ p ∈ nodes, ∀ dep ∈ p.2,
    dep ∈ order ∧ order.indexOf dep < order.indexOf p.1

instance (nodes : NodeTable) (order : List String) :
    Decidable (IsTopoLin nodes order) := by
  unfold IsTopoLin; infer_instance

/-- `_add_to_history` from `orchestrator.py`: append, then drop the single
oldest entry when the bound is exceeded. -/
def add_to_history (max_history : Nat) (history : List AIIntent)
    (intent : AIIntent) : List AIIntent :=
  let h := history ++ [intent]
  if h.length > max_history then h.tail else h

/-- One processor of the source orchestrator's DAG; an `Except.error`
models a raised Python exception. -/
abbrev Processor := PCtx → Except String PCtx

/-- The node loop of the source `parse_intent` (orchestrator.py): the
processors run in order with no try/except around the loop, so an error
aborts the loop and propagates. -/
def runNodesSrc : List Processor → PCtx → Except String PCtx
  | [], ctx => Except.ok ctx
  | p :: rest, ctx =>
    match p ctx with
    | Except.error e => Except.error e
    | Except.ok c => runNodesSrc rest c

/-- `parse_intent` from `orchestrator.py` (lines 209-242): run the stored
DAG processors in execution order, fall back to an unknown intent when
the context lacks one, and append to the bounded history
(`max_history = 10`).  There is no exception handler around the stage
loop. -/
def parse_intent_src (procs : List Processor) (user_input : String)
    (ts : Int) (history : List AIIntent) :
    Except String (AIIntent × List AIIntent) :=
  match runNodesSrc procs (initCtx user_input ts) with
  | Except.error e => Except.error e
  | Except.ok ctx =>
    let intent := ctx.intent.getD
      { action := "unknown", target := user_input, parameters := [],
        confidence := 0, timestamp := ts }
    Except.ok (intent, add_to_history 10 history intent)

/-- Specification-side definition, following §4.4 of the spec: structural
validity of a model record against the closed vocabularies. -/
def specModelValid (l : Classification) : Prop :=
  l.action ∈ validActions ∧
  (l.action = "set_render_mode" → toLowerStr l.target ∈ modeNamesLower) ∧
  ((l.action = "add_effect" ∨ l.action = "remove_effect") →
    toLowerStr l.target ∈ effectNamesLower)

instance (l : Classification) : Decidable (specModelValid l) := by
  unfold specModelValid; infer_instance

/-- Specification-side definition, following §4.4 of the spec: the model
record is adopted only if it is structurally valid and its confidence
clears `max(0.55, ruleConfidence - 0.05)`. -/
def specAdopts (l r : Classification) : Prop :=
  specModelValid l ∧ l.confidence ≥ max 0.55 (r.confidence - 0.05)

instance (l r : Classification) : Decidable (specAdopts l r) := by
  unfold specAdopts; infer_instance

/-- The model record of the C1 scenario. -/
def llmNotreal : Classification :=
  { action := "add_effect", target := "notreal", parameters := [],
    confidence := mkRat 9 10, source := "llm" }

/-- A rule record with target blur (the rule path on input "blur"). -/
def ruleBlur : Classification :=
  { action := "add_effect", target := "blur", parameters := [],
    confidence := mkRat 7 10, source := "rule" }

/-- A structurally valid, high-confidence model record. -/
def llmStylized : Classification :=
  { action := "set_render_mode", target := "stylized", parameters := [],
    confidence := mkRat 95 100, source := "llm" }

/-- Orchestrator fixture whose model call raises. -/
def orchBoom : Orch :=
  { config := none, model := true,
    query_llm := fun _ => Except.error "llm boom" }

/-- Orchestrator fixture with a loaded model that returns nothing. -/
def orchIdle : Orch :=
  { config := none, model := true, query_llm := fun _ => Except.ok none }

/-- Sample intent record for history witnesses. -/
def sampleIntent : AIIntent :=
  { action := "add_effect", target := "blur", parameters := [],
    confidence := mkRat 7 10, timestamp := 0 }

/-- The five-node pipeline dependency table from `_build_dag`. -/
def pipelineNodes : NodeTable :=
  [("preprocess", []), ("classify", ["preprocess"]),
   ("extract", ["classify"]), ("validate", ["extract"]),
   ("finalize", ["validate"])]

/-- The fixed execution order of the pipeline. -/
def pipelineOrder : List String :=
  ["preprocess", "classify", "extract", "validate", "finalize"]

/-! ### Helper lemmas -/

theorem clamp_confidence_nonneg (c : ℚ) : 0 ≤ clamp_confidence c :=
  le_max_left 0 (min 1 c)

theorem clamp_confidence_le_one (c : ℚ) : clamp_confidence c ≤ 1 :=
  max_le (by norm_num) (min_le_left 1 c)

theorem clamp_confidence_idem (c : ℚ) :
    clamp_confidence (clamp_confidence c) = clamp_confidence c := by
  have h1 : (0 : ℚ) ≤ max 0 (min 1 c) := le_max_left _ _
  have h2 : max (0 : ℚ) (min 1 c) ≤ 1 := max_le (by norm_num) (min_le_left _ _)
  unfold clamp_confidence
  rw [min_eq_right h2, max_eq_right h1]

theorem ratSub_eq (a b : ℚ) : ratSub a b = a - b := (Rat.sub_def' a b).symm

theorem mkRat_55_100 : mkRat 55 100 = (0.55 : ℚ) := by
  rw [Rat.mkRat_eq_div]; norm_num

theorem mkRat_5_100 : mkRat 5 100 = (0.05 : ℚ) := by
  rw [Rat.mkRat_eq_div]; norm_num

theorem mkRat_85_100 : mkRat 85 100 = (0.85 : ℚ) := by
  rw [Rat.mkRat_eq_div]; norm_num

theorem mkRat_2_10 : mkRat 2 10 = (0.2 : ℚ) := by
  rw [Rat.mkRat_eq_div]; norm_num

theorem mkRat_9_10 : mkRat 9 10 = (0.9 : ℚ) := by
  rw [Rat.mkRat_eq_div]; norm_num

theorem mkRat_95_100 : mkRat 95 100 = (0.95 : ℚ) := by
  rw [Rat.mkRat_eq_div]; norm_num

theorem mkRat_nat_div_100 (d : Nat) : (mkRat d 100 : ℚ) = (d : ℚ) / 100 := by
  rw [Rat.mkRat_eq_div]; push_cast; ring

theorem contains_iff_mem {l : List String} {a : String} :
    l.contains a = true ↔ a ∈ l := List.elem_iff

theorem isSubstr_infix_iff (needle hay : List Char) :
    isSubstr needle hay = true ↔ needle <:+: hay := by
  induction hay with
  | nil => simp [isSubstr, List.isEmpty_iff]
  | cons c t ih =>
    simp [isSubstr, ih, List.infix_cons_iff, List.isPrefixOf_iff_prefix]

theorem isSubstr_trans {a b c : List Char} (h1 : isSubstr a b = true)
    (h2 : isSubstr b c = true) : isSubstr a c = true := by
  rw [isSubstr_infix_iff] at h1 h2 ⊢
  exact h1.trans h2

theorem mergeTargetValid_iff (l : Classification) :
    mergeTargetValid l = true ↔
      ((l.action = "set_render_mode" →
          toLowerStr l.target ∈ modeNamesLower) ∧
       ((l.action = "add_effect" ∨ l.action = "remove_effect") →
          toLowerStr l.target ∈ effectNamesLower)) := by
  unfold mergeTargetValid
  by_cases h1 : l.action = "add_effect"
  · simp [h1, contains_iff_mem]
  · by_cases h2 : l.action = "remove_effect"
    · simp [h1, h2, contains_iff_mem]
    · by_cases h3 : l.action = "set_render_mode"
      · simp [h1, h2, h3, contains_iff_mem]
      · simp [h1, h2, h3]

theorem mergeUseLLM_iff (l r : Classification) :
    mergeUseLLM l r = true ↔ specAdopts l r := by
  unfold mergeUseLLM specAdopts specModelValid
  simp only [Bool.and_eq_true, contains_iff_mem, mergeTargetValid_iff,
    decide_eq_true_eq, ratSub_eq, mkRat_55_100, mkRat_5_100]

theorem merge_some (l r : Classification) :
    merge_classifications (some l) r =
      if specAdopts l r then
        { action := l.action, target := toLowerStr l.target,
          parameters := l.parameters,
          confidence := clamp_confidence l.confidence, source := "llm" }
      else { r with confidence := clamp_confidence r.confidence } := by
  by_cases h : specAdopts l r
  · rw [if_pos h]
    have hb : mergeUseLLM l r = true := (mergeUseLLM_iff l r).mpr h
    simp [merge_classifications, hb, clamp_confidence_idem]
  · rw [if_neg h]
    cases hb : mergeUseLLM l r with
    | false => simp [merge_classifications, hb]
    | true => exact absurd ((mergeUseLLM_iff l r).mp hb) h

/-! ### Claim theorems -/

/-- C1: `merge_classifications` starts from the rule record as baseline;
a model record is adopted only if its action is in the closed action
vocabulary, its target is in the render-mode vocabulary for
`set_render_mode` and in the effect vocabulary for `add_effect` or
`remove_effect`, and its confidence is at least
`max(0.55, ruleConfidence - 0.05)`; otherwise the rule record stands.
In particular the model record with target "notreal" and confidence 0.9
is rejected against the rule record with target blur. -/
theorem c1_merge_adopts_model_only_when_valid :
    (∀ l r : Classification, specAdopts l r →
      merge_classifications (some l) r =
        { action := l.action, target := toLowerStr l.target,
          parameters := l.parameters,
          confidence := clamp_confidence l.confidence, source := "llm" }) ∧
    (∀ l r : Classification, ¬ specAdopts l r →
      merge_classifications (some l) r =
        { r with confidence := clamp_confidence r.confidence }) ∧
    ((merge_classifications (some llmNotreal) ruleBlur).target = "blur" ∧
     (merge_classifications (some llmNotreal) ruleBlur).source = "rule") :=
  ⟨fun l r h => by rw [merge_some, if_pos h],
   fun l r h => by rw [merge_some, if_neg h],
   by decide, by decide⟩

/-- Witness for C1: the adoption branch at a valid high-confidence model
record and the rejection branch at the "notreal" scenario record. -/
theorem c1_witness :
    (merge_classifications (some llmStylized) ruleBlur =
      { action := llmStylized.action, target := toLowerStr llmStylized.target,
        parameters := llmStylized.parameters,
        confidence := clamp_confidence llmStylized.confidence,
        source := "llm" }) ∧
    (merge_classifications (some llmNotreal) ruleBlur =
      { ruleBlur with confidence := clamp_confidence ruleBlur.confidence }) :=
  ⟨c1_merge_adopts_model_only_when_valid.1 llmStylized ruleBlur
    ⟨⟨by decide, fun _ => by decide, fun h => absurd h (by decide)⟩, by
      rw [ge_iff_le, max_le_iff]
      constructor <;> norm_num [llmStylized, ruleBlur, Rat.mkRat_eq_div]⟩,
   c1_merge_adopts_model_only_when_valid.2.1 llmNotreal ruleBlur
    (fun hc => absurd (hc.1.2.2 (Or.inl rfl)) (by decide))⟩

/-- C8: for every rule record, merging with no model record returns
exactly that record with its confidence clamped to the unit interval and
every other field unchanged. -/
theorem c8_merge_none_identity_clamped (r : Classification) :
    merge_classifications none r =
      { r with confidence := clamp_confidence r.confidence } := rfl

/-- C9: the percentage form of extract_intensity is not capped: whenever
the regex finds a first percentage of numeric value d the result is
d/100, even above 1, and rule_based_classify attaches the value
unchanged ("add 200% blur" yields intensity 2, which exceeds 1). -/
theorem c9_intensity_percentage_unclamped :
    (∀ (s : String) (d : Nat), findPercent s.data = some d →
      extract_intensity s = some ((d : ℚ) / 100)) ∧
    extract_intensity "add 200% blur" = some 2 ∧
    ((rule_based_classify "add 200% blur").action = "add_effect" ∧
     (rule_based_classify "add 200% blur").target = "blur" ∧
     (rule_based_classify "add 200% blur").parameters =
       [("intensity", 2)]) ∧
    (1 : ℚ) < 2 := by
  refine ⟨?_, by decide, ⟨by decide, by decide, by decide⟩, by norm_num⟩
  intro s d h
  simp [extract_intensity, h, mkRat_nat_div_100]

/-- Witness for C9 at the concrete input "200%". -/
theorem c9_witness : extract_intensity "200%" = some ((200 : ℚ) / 100) :=
  c9_intensity_percentage_unclamped.1 "200%" 200 (by decide)

/-- C10: a normalized input containing "recording" that matches no
render-mode, effect, or capture keyword is classified start_recording
with confidence 0.85 (never stop_recording), because the start branch
tests the substring "record" before the stop branch in the exclusive
if/elif chain. -/
theorem c10_recording_classified_start_recording (s : String)
    (hrender : findKeywordEntry RENDER_MODES s = none)
    (heffect : findKeywordEntry EFFECTS s = none)
    (hcapture : captureKws.any (fun kw => containsStr s kw) = false)
    (hrec : containsStr s "recording" = true) :
    rule_based_classify s =
      { ruleBase with action := "start_recording", confidence := 0.85 } := by
  have hrecord : containsStr s "record" = true := isSubstr_trans (by decide) hrec
  have hany : recordKws.any (fun kw => containsStr s kw) = true := by
    simp [recordKws, hrecord]
  unfold rule_based_classify
  rw [hrender, heffect]
  simp [hcapture, hany, mkRat_85_100]

/-- Witness for C10 at the concrete input "stop recording". -/
theorem c10_witness :
    rule_based_classify "stop recording" =
      { ruleBase with action := "start_recording", confidence := 0.85 } :=
  c10_recording_classified_start_recording "stop recording"
    (by decide) (by decide) (by decide) (by decide)

theorem hist_foldl_drop (maxH : Nat) (rs : List AIIntent) :
    List.foldl (add_to_history maxH) [] rs = rs.drop (rs.length - maxH) := by
  induction rs using List.reverseRecOn with
  | nil => simp
  | append_singleton rs r ih =>
    rw [List.foldl_append, ih]
    simp only [List.foldl_cons, List.foldl_nil]
    simp only [add_to_history]
    rcases Nat.lt_or_ge rs.length maxH with hlt | hge
    · have h0 : rs.length - maxH = 0 := Nat.sub_eq_zero_of_le (Nat.le_of_lt hlt)
      rw [h0, List.drop_zero]
      have hcond : ¬ ((rs ++ [r]).length > maxH) := by
        simp only [List.length_append, List.length_cons, List.length_nil]
        omega
      rw [if_neg hcond]
      have h1 : (rs ++ [r]).length - maxH = 0 := by
        simp only [List.length_append, List.length_cons, List.length_nil]
        omega
      rw [h1, List.drop_zero]
    · have hdlen : (rs.drop (rs.length - maxH)).length = maxH := by
        rw [List.length_drop]; omega
      have hcond : (rs.drop (rs.length - maxH) ++ [r]).length > maxH := by
        simp only [List.length_append, List.length_cons, List.length_nil, hdlen]
        omega
      rw [if_pos hcond]
      rcases Nat.eq_zero_or_pos maxH with h0 | hpos
      · subst h0
        simp [List.drop_length]
      · have hne : rs.drop (rs.length - maxH) ≠ [] := by
          intro hnil
          rw [hnil] at hdlen
          simp at hdlen
          omega
        rw [List.tail_append_of_ne_nil hne, ← List.drop_one, List.drop_drop]
        have hlen2 : (rs ++ [r]).length - maxH = (rs.length - maxH) + 1 := by
          simp only [List.length_append, List.length_cons, List.length_nil]
          omega
        rw [hlen2, List.drop_append_of_le_length (by omega)]

/-- C7: the intent history never holds more than max_history entries:
after appending max_history + k records (k at least 1) exactly the most
recent max_history remain, with the k oldest evicted first, one
single-oldest removal per append that exceeds the bound. -/
theorem c7_history_bounded_fifo :
    (∀ (maxH k : Nat) (rs : List AIIntent), 1 ≤ k →
      rs.length = maxH + k →
      List.foldl (add_to_history maxH) [] rs = rs.drop k) ∧
    (∀ (maxH : Nat) (rs : List AIIntent),
      (List.foldl (add_to_history maxH) [] rs).length ≤ maxH) := by
  constructor
  · intro maxH k rs hk hlen
    rw [hist_foldl_drop, hlen]
    congr 1
    omega
  · intro maxH rs
    rw [hist_foldl_drop, List.length_drop]
    omega

/-- Witness for C7: twelve appends against the default bound of 10 keep
exactly the last ten records. -/
theorem c7_witness :
    List.foldl (add_to_history 10) [] (List.replicate 12 sampleIntent) =
      (List.replicate 12 sampleIntent).drop 2 :=
  c7_history_bounded_fifo.1 10 2 (List.replicate 12 sampleIntent)
    (by decide) (by decide)

theorem classify_snd (orch : Orch) (input : String) (ctx : PCtx) :
    (classify_intent orch input ctx).2 =
      if (ctx.normalized_input.getD (stripStr (toLowerStr input))).data.isEmpty
      then 0
      else if decide ((rule_based_classify
            (ctx.normalized_input.getD (stripStr (toLowerStr input)))).confidence <
            (orch.config.map (fun c => c.rule_confidence_skip_llm)).getD
              (mkRat 9 10)) && orch.model
        then 1 else 0 := by
  unfold classify_intent
  by_cases hE :
      (ctx.normalized_input.getD (stripStr (toLowerStr input))).data.isEmpty <;>
    simp [hE]

/-- C5: the model collaborator is invoked only when the rule confidence is
strictly below the skip threshold (default 0.9) and a model is available;
the "help" scenario (rule confidence 0.95) with the default threshold
makes zero collaborator calls; a model-invocation failure is caught, never
propagated, and classification proceeds on the rule result alone. -/
theorem c5_model_invoked_only_below_threshold :
    (∀ (orch : Orch) (input : String) (ctx : PCtx),
      (classify_intent orch input ctx).2 ≠ 0 →
      (rule_based_classify
          (ctx.normalized_input.getD (stripStr (toLowerStr input)))).confidence <
          (orch.config.map (fun c => c.rule_confidence_skip_llm)).getD (mkRat 9 10) ∧
        orch.model = true) ∧
    (∀ orch : Orch, orch.model = true → orch.config = none →
      llmCalls orch "help" 0 = 0) ∧
    (∀ (orch : Orch) (input : String) (ctx : PCtx) (e : String),
      (ctx.normalized_input.getD (stripStr (toLowerStr input))).data.isEmpty
          = false →
      orch.query_llm (ctx.normalized_input.getD (stripStr (toLowerStr input))) =
        Except.error e →
      (classify_intent orch input ctx).1.classification =
        some (merge_classifications none (rule_based_classify
          (ctx.normalized_input.getD (stripStr (toLowerStr input)))))) := by
  refine ⟨?_, ?_, ?_⟩
  · intro orch input ctx h
    rw [classify_snd] at h
    split_ifs at h with h1 h2
    · exact absurd rfl h
    · rw [Bool.and_eq_true] at h2
      exact ⟨of_decide_eq_true h2.1, h2.2⟩
    · exact absurd rfl h
  · rintro ⟨cfg, mdl, q⟩ hm hc
    obtain rfl : mdl = true := hm
    obtain rfl : cfg = none := hc
    rfl
  · intro orch input ctx e hE hq
    unfold classify_intent
    simp only [hE, Bool.false_eq_true, if_false, hq]
    cases hI : decide ((rule_based_classify
        (ctx.normalized_input.getD (stripStr (toLowerStr input)))).confidence <
        (orch.config.map (fun c => c.rule_confidence_skip_llm)).getD
          (mkRat 9 10)) && orch.model <;>
      simp [hI]

/-- Witness for C5: a below-threshold input with a live model makes one
call (so the only-if condition is exercised), the help scenario makes
zero calls, and a raising model leaves the clamped rule result. -/
theorem c5_witness :
    ((rule_based_classify
        ((ctxAfterPreprocess orchIdle "add blur" 0).normalized_input.getD
          (stripStr (toLowerStr "add blur")))).confidence <
        (orchIdle.config.map (fun c => c.rule_confidence_skip_llm)).getD
          (mkRat 9 10) ∧
      orchIdle.model = true) ∧
    llmCalls orchIdle "help" 0 = 0 ∧
    (classify_intent orchBoom "add blur"
        (ctxAfterPreprocess orchBoom "add blur" 0)).1.classification =
      some (merge_classifications none (rule_based_classify
        ((ctxAfterPreprocess orchBoom "add blur" 0).normalized_input.getD
          (stripStr (toLowerStr "add blur"))))) :=
  ⟨c5_model_invoked_only_below_threshold.1 orchIdle "add blur"
      (ctxAfterPreprocess orchIdle "add blur" 0) (by decide),
   c5_model_invoked_only_below_threshold.2.1 orchIdle rfl rfl,
   c5_model_invoked_only_below_threshold.2.2 orchBoom "add blur"
      (ctxAfterPreprocess orchBoom "add blur" 0) "llm boom" (by decide) rfl⟩

/-- C6: for every input whose normalized text is empty the classify stage
short-circuits to the guardrail classification without invoking the
model, and the final intent has action unknown, classification source
guardrail, and confidence at most 0.2. -/
theorem c6_empty_input_guardrail (orch : Orch) (input : String) (ts now : Int)
    (h : (ctxAfterPreprocess orch input ts).normalized_input = some "") :
    (ctxAfterClassify orch input ts).classification =
        some (unknown_classification "empty_input") ∧
      llmCalls orch input ts = 0 ∧
      (run_pipeline orch input ts now).classification_source =
        some "guardrail" ∧
      (∃ i, (run_pipeline orch input ts now).intent = some i ∧
        i.action = "unknown" ∧ i.confidence ≤ 0.2) := by
  have hn : (ctxAfterPreprocess orch input ts).normalized_input.getD
      (stripStr (toLowerStr input)) = "" := by rw [h]; rfl
  have hcls : classify_intent orch input (ctxAfterPreprocess orch input ts) =
      ({ ctxAfterPreprocess orch input ts with
          classification := some (unknown_classification "empty_input"),
          confidence :=
            some (unknown_classification "empty_input").confidence }, 0) := by
    unfold classify_intent
    rw [hn]
    rfl
  refine ⟨?_, ?_, ?_, ?_⟩
  · unfold ctxAfterClassify
    rw [hcls]
  · unfold llmCalls
    rw [hcls]
  · unfold run_pipeline ctxAfterValidate ctxAfterExtract ctxAfterClassify
    rw [hcls]
    rfl
  · unfold run_pipeline ctxAfterValidate ctxAfterExtract ctxAfterClassify
    rw [hcls]
    refine ⟨_, rfl, rfl, ?_⟩
    show clamp_confidence (mkRat 2 10) ≤ (0.2 : ℚ)
    have hc : clamp_confidence (mkRat 2 10) = mkRat 2 10 := by decide
    rw [hc, mkRat_2_10]

/-- Witness for C6 at the whitespace-only input. -/
theorem c6_witness :
    (ctxAfterClassify orchIdle "  " 3).classification =
        some (unknown_classification "empty_input") ∧
      llmCalls orchIdle "  " 3 = 0 ∧
      (run_pipeline orchIdle "  " 3 7).classification_source =
        some "guardrail" ∧
      (∃ i, (run_pipeline orchIdle "  " 3 7).intent = some i ∧
        i.action = "unknown" ∧ i.confidence ≤ 0.2) :=
  c6_empty_input_guardrail orchIdle "  " 3 7 (by decide)

theorem merge_confidence_clamped (l : Option Classification)
    (r : Classification) :
    ∃ c, (merge_classifications l r).confidence = clamp_confidence c :=
  ⟨_, rfl⟩

theorem merge_conf_bounds (l : Option Classification) (r : Classification) :
    0 ≤ (merge_classifications l r).confidence ∧
      (merge_classifications l r).confidence ≤ 1 := by
  obtain ⟨c, hc⟩ := merge_confidence_clamped l r
  rw [hc]
  exact ⟨clamp_confidence_nonneg c, clamp_confidence_le_one c⟩

theorem classify_conf (orch : Orch) (input : String) (ctx : PCtx) :
    ∃ cl, (classify_intent orch input ctx).1.classification = some cl ∧
      (classify_intent orch input ctx).1.confidence = some cl.confidence ∧
      0 ≤ cl.confidence ∧ cl.confidence ≤ 1 := by
  unfold classify_intent
  by_cases hE :
      (ctx.normalized_input.getD (stripStr (toLowerStr input))).data.isEmpty
  · refine ⟨unknown_classification "empty_input", ?_⟩
    simp [hE]
    exact ⟨by decide, by decide⟩
  · simp only [hE, Bool.false_eq_true, if_false]
    exact ⟨_, rfl, rfl, (merge_conf_bounds _ _).1, (merge_conf_bounds _ _).2⟩

theorem extract_conf (orch : Orch) (input : String) (ctx : PCtx)
    (cl : Classification) (h : ctx.classification = some cl) :
    (extract_parameters orch input ctx).confidence = some cl.confidence := by
  unfold extract_parameters
  rw [h]

theorem validate_conf (orch : Orch) (input : String) (ctx : PCtx) :
    ∃ q, (validate_intent orch input ctx).confidence = some q ∧
      0 ≤ q ∧ q ≤ 1 :=
  ⟨_, rfl, clamp_confidence_nonneg _, clamp_confidence_le_one _⟩

theorem preprocess_conf (orch : Orch) (input : String) (ctx : PCtx) :
    (preprocess_input orch input ctx).confidence = ctx.confidence := by
  unfold preprocess_input
  dsimp only
  split <;> rfl

theorem finalize_conf (orch : Orch) (input : String) (now : Int)
    (ctx : PCtx) :
    (finalize_intent orch input now ctx).confidence = ctx.confidence := rfl

theorem finalize_intent_eq (orch : Orch) (input : String) (now : Int)
    (ctx : PCtx) :
    (finalize_intent orch input now ctx).intent =
      some { action := ctx.action.getD "unknown",
             target := ctx.target.getD "",
             parameters := ctx.parameters.getD [],
             confidence := ctx.confidence.getD 0,
             timestamp := ctx.timestamp.getD now } := rfl

/-- C2: for every input string and every raw model response (including a
raising model), the confidence is absent before classification and lies in
the unit interval at the classify, extract and validate stage boundaries,
after finalize, and in the final intent record. -/
theorem c2_confidence_in_unit_interval (orch : Orch) (input : String)
    (ts now : Int) :
    (ctxAfterPreprocess orch input ts).confidence = none ∧
    (∃ q, (ctxAfterClassify orch input ts).confidence = some q ∧
      0 ≤ q ∧ q ≤ 1) ∧
    (∃ q, (ctxAfterExtract orch input ts).confidence = some q ∧
      0 ≤ q ∧ q ≤ 1) ∧
    (∃ q, (ctxAfterValidate orch input ts).confidence = some q ∧
      0 ≤ q ∧ q ≤ 1) ∧
    (∃ q, (run_pipeline orch input ts now).confidence = some q ∧
      0 ≤ q ∧ q ≤ 1) ∧
    (∃ i, (run_pipeline orch input ts now).intent = some i ∧
      0 ≤ i.confidence ∧ i.confidence ≤ 1) := by
  obtain ⟨cl, hc1, hc2, hb1, hb2⟩ :=
    classify_conf orch input (ctxAfterPreprocess orch input ts)
  have hpre : (ctxAfterPreprocess orch input ts).confidence = none := by
    unfold ctxAfterPreprocess
    rw [preprocess_conf]
    rfl
  have hc1x : (ctxAfterClassify orch input ts).classification = some cl := by
    unfold ctxAfterClassify
    exact hc1
  have hc2x : (ctxAfterClassify orch input ts).confidence =
      some cl.confidence := by
    unfold ctxAfterClassify
    exact hc2
  have hext : (ctxAfterExtract orch input ts).confidence =
      some cl.confidence := by
    unfold ctxAfterExtract
    exact extract_conf orch input (ctxAfterClassify orch input ts) cl hc1x
  obtain ⟨q, hv, h0, h1⟩ :=
    validate_conf orch input (ctxAfterExtract orch input ts)
  have hvx : (ctxAfterValidate orch input ts).confidence = some q := by
    unfold ctxAfterValidate
    exact hv
  have hrun : (run_pipeline orch input ts now).confidence = some q := by
    unfold run_pipeline
    rw [finalize_conf]
    exact hvx
  have hint : (run_pipeline orch input ts now).intent =
      some { action := (ctxAfterValidate orch input ts).action.getD "unknown",
             target := (ctxAfterValidate orch input ts).target.getD "",
             parameters := (ctxAfterValidate orch input ts).parameters.getD [],
             confidence := (ctxAfterValidate orch input ts).confidence.getD 0,
             timestamp :=
               (ctxAfterValidate orch input ts).timestamp.getD now } := by
    unfold run_pipeline
    rw [finalize_intent_eq]
  refine ⟨hpre, ⟨cl.confidence, hc2x, hb1, hb2⟩,
    ⟨cl.confidence, hext, hb1, hb2⟩,
    ⟨q, hvx, h0, h1⟩, ⟨q, hrun, h0, h1⟩, ⟨_, hint, ?_, ?_⟩⟩
  · dsimp only
    rw [hvx]
    exact h0
  · dsimp only
    rw [hvx]
    exact h1

theorem lastIdx_eq_none_iff {order : List String} {n : String} :
    lastIdx order n = none ↔ n ∉ order := by
  induction order with
  | nil => simp [lastIdx]
  | cons c t ih =>
    simp only [lastIdx]
    cases h : lastIdx t n with
    | some i =>
      have hmem : n ∈ t := by
        by_contra hn
        rw [ih.mpr hn] at h
        exact Option.noConfusion h
      simp [List.mem_cons, hmem]
    | none =>
      have hnt : n ∉ t := ih.mp h
      by_cases hc : c = n
      · simp [hc, List.mem_cons]
      · rw [if_neg hc]
        constructor
        · intro _ hmem
          rcases List.mem_cons.mp hmem with rfl | hmt
          · exact hc rfl
          · exact hnt hmt
        · intro _
          rfl

theorem lastIdx_nodup {order : List String} (hnd : order.Nodup) {n : String}
    (hm : n ∈ order) : lastIdx order n = some (order.indexOf n) := by
  induction order with
  | nil => cases hm
  | cons c t ih =>
    rw [List.nodup_cons] at hnd
    rcases List.mem_cons.mp hm with rfl | hmt
    · have ht : lastIdx t n = none := lastIdx_eq_none_iff.mpr hnd.1
      simp [lastIdx, ht, List.indexOf_cons_self]
    · have hne : c ≠ n := fun h => hnd.1 (h ▸ hmt)
      have hti := ih hnd.2 hmt
      simp [lastIdx, hti, List.indexOf_cons_ne _ hne, Nat.succ_eq_add_one]

theorem lastIdx_mem {order : List String} {n : String} {i : Nat}
    (h : lastIdx order n = some i) : n ∈ order := by
  by_contra hn
  rw [lastIdx_eq_none_iff.mpr hn] at h
  exact Option.noConfusion h

theorem checkDeps_cons (order : List String) (name d : String)
    (rest : List String) :
    checkDeps order name (d :: rest) = Except.ok () ↔
      ((∃ pd pn, lastIdx order d = some pd ∧
          lastIdx order name = some pn ∧ pd ≤ pn) ∧
        checkDeps order name rest = Except.ok ()) := by
  simp only [checkDeps]
  cases hd : lastIdx order d with
  | none => simp
  | some pd =>
    cases hn : lastIdx order name with
    | none => simp
    | some pn =>
      dsimp only
      by_cases hgt : pd > pn
      · rw [if_pos hgt]
        have hnle : ¬ pd ≤ pn := by omega
        simp [hnle]
      · rw [if_neg hgt]
        have hle : pd ≤ pn := Nat.le_of_not_lt hgt
        simp [hle]

theorem checkDeps_ok_iff {order : List String} {name : String}
    {deps : List String} :
    checkDeps order name deps = Except.ok () ↔
      ∀ dep ∈ deps, ∃ pd pn, lastIdx order dep = some pd ∧
        lastIdx order name = some pn ∧ pd ≤ pn := by
  induction deps with
  | nil => simp [checkDeps]
  | cons d rest ih => rw [checkDeps_cons, ih, List.forall_mem_cons]

theorem checkNodes_ok_iff {order : List String} {nodes : NodeTable} :
    checkNodes order nodes = Except.ok () ↔
      ∀ p ∈ nodes, checkDeps order p.1 p.2 = Except.ok () := by
  induction nodes with
  | nil => simp [checkNodes]
  | cons p rest ih =>
    obtain ⟨name, deps⟩ := p
    simp only [checkNodes]
    cases hcd : checkDeps order name deps with
    | ok u =>
      cases u
      rw [ih]
      simp [List.forall_mem_cons, hcd]
    | error e => simp [List.forall_mem_cons, hcd]

theorem validate_dag_ok_iff {nodes : NodeTable} {order : List String} :
    validate_dag nodes order = Except.ok () ↔
      (∀ n ∈ order, n ∈ keysOf nodes) ∧ (∀ n ∈ keysOf nodes, n ∈ order) ∧
      checkNodes order nodes = Except.ok () := by
  have hmiss : (order.filter (fun n => !(keysOf nodes).contains n)).isEmpty
      = true ↔ ∀ n ∈ order, n ∈ keysOf nodes := by
    simp [List.isEmpty_iff, List.filter_eq_nil_iff, contains_iff_mem]
  have hunk : ((keysOf nodes).filter (fun n => !order.contains n)).isEmpty
      = true ↔ ∀ n ∈ keysOf nodes, n ∈ order := by
    simp [List.isEmpty_iff, List.filter_eq_nil_iff, contains_iff_mem]
  unfold validate_dag
  dsimp only
  cases hE1 : (order.filter (fun n => !(keysOf nodes).contains n)).isEmpty with
  | false =>
    have hA : ¬ ∀ n ∈ order, n ∈ keysOf nodes := by
      rw [← hmiss, hE1]
      simp
    constructor
    · intro h'
      simp at h'
    · rintro ⟨hA', -, -⟩
      exact absurd hA' hA
  | true =>
    have hA : ∀ n ∈ order, n ∈ keysOf nodes := hmiss.mp hE1
    cases hE2 : ((keysOf nodes).filter (fun n => !order.contains n)).isEmpty with
    | false =>
      have hB : ¬ ∀ n ∈ keysOf nodes, n ∈ order := by
        rw [← hunk, hE2]
        simp
      constructor
      · intro h'
        simp at h'
      · rintro ⟨-, hB', -⟩
        exact absurd hB' hB
    | true =>
      have hB : ∀ n ∈ keysOf nodes, n ∈ order := hunk.mp hE2
      constructor
      · intro h'
        simp at h'
        exact ⟨hA, hB, h'⟩
      · rintro ⟨-, -, h'⟩
        simpa using h'

/-- C4 counterexample: a node that lists itself as a dependency sits at
its own position, which is "at" the node rather than strictly after it;
validate_dag accepts the order although it is not a valid topological
linearization of the declared graph. -/
theorem c4_counterexample_self_dependency :
    validate_dag [("a", ["a"])] ["a"] = Except.ok () ∧
      ¬ IsTopoLin [("a", ["a"])] ["a"] :=
  ⟨rfl, fun h => Nat.lt_irrefl _
    ((h.2 ("a", ["a"]) (List.mem_singleton_self _) "a"
      (List.mem_singleton_self _)).2)⟩

/-- C4 (amended): for a duplicate-free order over a node table with
distinct names and no self-dependencies, validate_dag succeeds exactly
when the order is a valid topological linearization of the declared
dependency graph; equivalently it raises exactly when a name is missing
or unscheduled, or a dependency is absent from the order or scheduled
strictly after its node. -/
theorem c4_validate_dag_topological_iff (nodes : NodeTable)
    (order : List String) (hkeys : (keysOf nodes).Nodup)
    (horder : order.Nodup) (hself : ∀ p ∈ nodes, p.1 ∉ p.2) :
    validate_dag nodes order = Except.ok () ↔ IsTopoLin nodes order := by
  rw [validate_dag_ok_iff, checkNodes_ok_iff]
  constructor
  · rintro ⟨hsub1, hsub2, hdeps⟩
    refine ⟨(List.perm_ext_iff_of_nodup horder hkeys).mpr
      (fun a => ⟨hsub1 a, hsub2 a⟩), ?_⟩
    intro p hp dep hdep
    obtain ⟨pd, pn, hpd, hpn, hle⟩ :=
      (checkDeps_ok_iff.mp (hdeps p hp)) dep hdep
    have hdmem : dep ∈ order := lastIdx_mem hpd
    have hnmem : p.1 ∈ order := lastIdx_mem hpn
    rw [lastIdx_nodup horder hdmem] at hpd
    rw [lastIdx_nodup horder hnmem] at hpn
    obtain rfl := Option.some.inj hpd
    obtain rfl := Option.some.inj hpn
    refine ⟨hdmem, ?_⟩
    have hne : dep ≠ p.1 := fun he => hself p hp (he ▸ hdep)
    exact Nat.lt_of_le_of_ne hle
      (fun heq => hne ((List.indexOf_inj hdmem hnmem).mp heq))
  · rintro ⟨hperm, hedges⟩
    refine ⟨fun n hn => hperm.mem_iff.mp hn,
      fun n hn => hperm.mem_iff.mpr hn, ?_⟩
    intro p hp
    rw [checkDeps_ok_iff]
    intro dep hdep
    obtain ⟨hdmem, hlt⟩ := hedges p hp dep hdep
    have hnmem : p.1 ∈ order :=
      hperm.mem_iff.mpr (List.mem_map_of_mem Prod.fst hp)
    exact ⟨order.indexOf dep, order.indexOf p.1, lastIdx_nodup horder hdmem,
      lastIdx_nodup horder hnmem, Nat.le_of_lt hlt⟩

/-- Witness for C4 (amended) at the concrete five-node pipeline graph. -/
theorem c4_witness :
    validate_dag pipelineNodes pipelineOrder = Except.ok () ↔
      IsTopoLin pipelineNodes pipelineOrder :=
  c4_validate_dag_topological_iff pipelineNodes pipelineOrder
    (by decide) (by decide) (by decide)

/-- C3 (failing evaluation): the source `parse_intent` has no exception
handler around its stage loop, so a stage that raises propagates the
error to the caller instead of returning a fallback unknown intent, and
the history is not updated (the repository's own tests assert the
opposite behaviour). -/
theorem c3_parse_intent_propagates_stage_error :
    parse_intent_src [fun _ => Except.error "boom"] "add blur" 1234 [] =
      Except.error "boom" := rfl

end LuminaVS
